import Mathlib

/-!
A verification development for `packages/next/src/server/after/after-context.ts`:
the post-response deferred-task scheduler (`AfterContext`).

The embedding models the coordinator's mutable fields as an explicit state
record, the JS heap of `WorkUnitStore` objects as a phase assignment
`Nat → Phase`, and the asynchronous lifecycle (schedule calls, the one-shot
close notification, the drain) as functions that also emit an event trace.
Exceptions are modelled as an `Option JsError` result component: mutations
performed before a `throw` persist in the returned state, exactly as in JS.
-/

/-- Phases a `WorkUnitStore` can be in (`work-unit-async-storage`).
Only `after` is distinguished by the code under study; the others stand for
every non-`after` phase. -/
inductive Phase where
  | action
  | render
  | request
  | after
  deriving DecidableEq, Repr

/-- JS error values thrown by the code: a plain `Error` with its message, or an
`InvariantError` (a distinct class in `shared/lib/invariant-error`). -/
inductive JsError where
  | error (msg : String)
  | invariantError (msg : String)
  deriving DecidableEq, Repr

/-- Embeds `CaptureStackTrace` (after-context.ts line 24): an `Error` subclass used
only as an opaque captured-stack value. We keep the captured text. -/
structure CaptureStackTrace where
  stack : String
  deriving DecidableEq, Repr

/-- Embeds `TaskCallerInfo` (after-context.ts lines 33-36). -/
structure TaskCallerInfo where
  callerStack : CaptureStackTrace
  reactOwnerStack : Option String
  deriving DecidableEq, Repr

/-- Embeds `AfterTaskStore` (the caller-chain record, from
`after-task-async-storage.external`): root fields captured at the topmost
`after` call plus the optional innermost-first list of nested caller stacks. -/
structure AfterTaskStore where
  rootTaskSpawnPhase : Option Phase
  rootTaskReactOwnerStack : Option String
  rootTaskCallerStack : CaptureStackTrace
  nestedTaskCallerStacks : Option (List CaptureStackTrace)
  deriving DecidableEq, Repr

/-- Embeds `AfterTask` (`./after`): a thenable (eventual task), a zero-argument
function (deferred procedure), or any other JS value (invalid shape).
Thenables and callbacks are identified by opaque numeric ids; an invalid
value keeps a description string. -/
inductive AfterTask where
  | thenable (id : Nat)
  | fn (cb : Nat)
  | invalid (desc : String)
  deriving DecidableEq, Repr

/-- A queue entry: the callback id together with the `AfterTaskStore` the
wrapped callback will run under (after-context.ts lines 141-158). -/
structure QueuedCallback where
  cb : Nat
  taskStore : AfterTaskStore
  deriving DecidableEq, Repr

/-- The mutable fields of an `AfterContext` instance (after-context.ts lines
39-46), plus two instrumentation counters recording how many times
`waitUntil` was invoked with a task promise (line 69) and with the
close-wait promise (line 163). -/
structure AfterContextState where
  waitUntil : Bool
  isEnabled : Bool
  callbackQueue : List QueuedCallback
  queuePaused : Bool
  workUnitStores : List Nat
  runCallbacksOnClosePromise : Bool
  thenableWaitUntilCalls : Nat
  closeWaitWaitUntilCalls : Nat
  deriving DecidableEq, Repr

/-- The `AfterContext` constructor (after-context.ts lines 48-61): stores the
options and creates the callback queue paused. -/
def mkAfterContext (waitUntil : Bool) (isEnabled : Bool) : AfterContextState :=
  { waitUntil := waitUntil
    isEnabled := isEnabled
    callbackQueue := []
    queuePaused := true
    workUnitStores := []
    runCallbacksOnClosePromise := false
    thenableWaitUntilCalls := 0
    closeWaitWaitUntilCalls := 0 }

/-- The heap of `WorkUnitStore` objects, by id: each store's current `phase`. -/
def World : Type := Nat → Phase

/-- The ambient async-local-storage context visible to a `schedule` call:
`workUnitAsyncStorage.getStore()` (the id of the ambient work-unit store, if
any) and `afterTaskAsyncStorage.getStore()`. -/
structure Ambient where
  workUnitStore : Option Nat
  afterTaskStore : Option AfterTaskStore

/-- Events of the coordinator's observable lifecycle. -/
inductive Event where
  | scheduled (cb : Nat)
  | waitUntilTask (t : Nat)
  | waitUntilCloseWait
  | closeFired
  | phaseSet (storeId : Nat)
  | queueStarted
  | callbackRun (cb : Nat)
  deriving DecidableEq, Repr

/-- Message of the usage error thrown for a malformed task
(after-context.ts lines 97-99). -/
def usageErrorMsg : String :=
  "`unstable_after()`: Argument must be a promise or a function"

/-- Embeds `errorWaitUntilNotAvailable` (after-context.ts lines 235-239). -/
def errorWaitUntilNotAvailable : JsError :=
  JsError.error
    "`unstable_after()` will not work correctly, because `waitUntil` is not available in the current environment."

/-- Models `Set.prototype.add`: append if not already present (insertion order kept). -/
def addToSet (xs : List Nat) (x : Nat) : List Nat :=
  if x ∈ xs then xs else xs ++ [x]

/-- The `newAfterTaskStore` computation inside `addCallback`
(after-context.ts lines 121-139): a topmost `after` records the spawn phase,
caller stack and owner stack with no nested sequence; a nested `after` copies
the outer record's root fields and prepends its caller stack to the nested
sequence. -/
def mkAfterTaskStore (outerAfterTaskStore : Option AfterTaskStore)
    (workUnitStorePhase : Option Phase) (callerInfo : TaskCallerInfo) :
    AfterTaskStore :=
  match outerAfterTaskStore with
  | none =>
    { rootTaskSpawnPhase := workUnitStorePhase
      rootTaskReactOwnerStack := callerInfo.reactOwnerStack
      rootTaskCallerStack := callerInfo.callerStack
      nestedTaskCallerStacks := none }
  | some outer =>
    { rootTaskSpawnPhase := outer.rootTaskSpawnPhase
      rootTaskReactOwnerStack := outer.rootTaskReactOwnerStack
      rootTaskCallerStack := outer.rootTaskCallerStack
      nestedTaskCallerStacks :=
        some (callerInfo.callerStack :: outer.nestedTaskCallerStacks.getD []) }

/-- Embeds `AfterContext.addCallback` (after-context.ts lines 103-165). Returns the
state after the call, the events it emitted, and the error it threw, if any;
mutations made before a throw persist in the returned state. -/
def addCallback (s : AfterContextState) (w : World) (amb : Ambient) (cb : Nat)
    (callerInfo : TaskCallerInfo) :
    AfterContextState × List Event × Option JsError :=
  if ¬ s.waitUntil then
    (s, [], some errorWaitUntilNotAvailable)
  else
    let s1 :=
      match amb.workUnitStore with
      | some wus => { s with workUnitStores := addToSet s.workUnitStores wus }
      | none => s
    let newAfterTaskStore :=
      mkAfterTaskStore amb.afterTaskStore (amb.workUnitStore.map w) callerInfo
    let s2 := { s1 with
      callbackQueue := s1.callbackQueue ++ [⟨cb, newAfterTaskStore⟩] }
    if ¬ s2.runCallbacksOnClosePromise then
      ({ s2 with
          runCallbacksOnClosePromise := true
          closeWaitWaitUntilCalls := s2.closeWaitWaitUntilCalls + 1 },
        [Event.scheduled cb, Event.waitUntilCloseWait], none)
    else
      (s2, [Event.scheduled cb], none)

/-- Embeds `AfterContext.after` (after-context.ts lines 63-101): classify the task;
thenables require `waitUntil` and are handed to it with a failure hook
attached; functions go through `addCallback`; anything else throws the usage
error synchronously. -/
def AfterContext.after (s : AfterContextState) (w : World) (amb : Ambient)
    (task : AfterTask) (callerInfo : TaskCallerInfo) :
    AfterContextState × List Event × Option JsError :=
  match task with
  | .thenable t =>
    if ¬ s.waitUntil then
      (s, [], some errorWaitUntilNotAvailable)
    else
      ({ s with thenableWaitUntilCalls := s.thenableWaitUntilCalls + 1 },
        [Event.waitUntilTask t], none)
  | .fn cb => addCallback s w amb cb callerInfo
  | .invalid _ => (s, [], some (JsError.error usageErrorMsg))

/-- The phase mutation of the drain loop (after-context.ts lines 175-177):
`for (const workUnitStore of this.workUnitStores) workUnitStore.phase = 'after'`,
as its effect on the heap. -/
def flipPhases (w : World) (ids : List Nat) : World :=
  ids.foldl (fun h i => fun j => if j = i then Phase.after else h j) w

/-- Message of the invariant error thrown when the work store is missing at
drain time (after-context.ts line 181). -/
def missingWorkStoreMsg : String :=
  "Missing workStore in AfterContext.runCallbacks"

/-- Embeds `AfterContext.runCallbacks` (after-context.ts lines 172-188): return
early on an empty queue; otherwise flip every observed work-unit store's
phase to `after`, then require the ambient work store (throwing an
`InvariantError` if absent), then start the queue inside
`withExecuteRevalidates` and await idleness. Returns the heap after the
call, the emitted events in order, and the thrown error, if any. -/
def runCallbacks (s : AfterContextState) (w : World)
    (workStorePresent : Bool) : World × List Event × Option JsError :=
  if s.callbackQueue.length = 0 then
    (w, [], none)
  else
    let w1 := flipPhases w s.workUnitStores
    let flipEvents := s.workUnitStores.map Event.phaseSet
    if ¬ workStorePresent then
      (w1, flipEvents, some (JsError.invariantError missingWorkStoreMsg))
    else
      (w1,
        flipEvents ++ Event.queueStarted ::
          s.callbackQueue.map (fun q => Event.callbackRun q.cb),
        none)

/-- Embeds `AfterContext.runCallbacksOnClose` (after-context.ts lines 167-170):
await the one-shot close notification, then run the callbacks. Its trace is
the `closeFired` event followed by everything `runCallbacks` does. -/
def runCallbacksOnClose (s : AfterContextState) (w : World)
    (workStorePresent : Bool) : World × List Event × Option JsError :=
  let r := runCallbacks s w workStorePresent
  (r.1, Event.closeFired :: r.2.1, r.2.2)

/-- One call to the coordinator's entry point: the ambient context it was
made under, the task, and the caller info. -/
structure ScheduleOp where
  amb : Ambient
  task : AfterTask
  callerInfo : TaskCallerInfo

/-- Run a sequence of `schedule` calls on a coordinator state, collecting
the emitted events. A call that throws leaves its mutations in place and
the caller of `unstable_after` may keep scheduling, so the run continues. -/
def runSchedules (s : AfterContextState) (w : World) :
    List ScheduleOp → AfterContextState × List Event
  | [] => (s, [])
  | op :: rest =>
    let r := AfterContext.after s w op.amb op.task op.callerInfo
    let r2 := runSchedules r.1 w rest
    (r2.1, r.2.1 ++ r2.2)

/-- The whole per-request lifecycle, as its event trace: a fresh coordinator
(constructor pauses the queue), a sequence of `schedule` calls, then the
host fires the one-shot close notification; if the close-wait task was armed
the drain follows it, otherwise nothing else runs. -/
def lifecycle (waitUntil isEnabled : Bool) (ops : List ScheduleOp) (w : World)
    (workStorePresent : Bool) : World × List Event :=
  let r := runSchedules (mkAfterContext waitUntil isEnabled) w ops
  if r.1.runCallbacksOnClosePromise then
    let d := runCallbacksOnClose r.1 w workStorePresent
    (d.1, r.2 ++ d.2.1)
  else
    (w, r.2 ++ [Event.closeFired])

/-- Values a deferred task can fail with: a JS `Error` object (for which
`isError` is true) or any other JS value. -/
inductive ErrVal where
  | jsErr (e : JsError)
  | other (v : String)
  deriving DecidableEq, Repr

/-- Embeds `isError` (`lib/is-error`): is the thrown value an `Error` object? -/
def isErrorVal : ErrVal → Bool
  | .jsErr _ => true
  | .other _ => false

/-- The `taskKind` values of `reportTaskError` (after-context.ts line 191). -/
inductive TaskKind where
  | promise
  | func
  deriving DecidableEq, Repr

/-- Observable actions of `reportTaskError`, in order: the `console.error`
of a stitch failure (lines 200-204), the `console.error` of the task error
with its kind-appropriate message (lines 210-215), the invocation of the
`onTaskError` hook (line 220), and the `console.error` of a hook failure
(lines 222-229). -/
inductive LogEvent where
  | stitchFailLog (cause : ErrVal)
  | taskErrorLog (kind : TaskKind) (e : ErrVal)
  | hookCall (e : ErrVal)
  | hookFailLog (cause : ErrVal)
  deriving DecidableEq, Repr

/-- The guarded stitch attempt of `reportTaskError` (after-context.ts lines
195-206): if the thrown value is an `Error`, try `stitchAfterCallstack`; a
throwing stitch is caught, the failure is logged, and the original error is
kept. Returns the logs of this step and the (possibly stitched) error. -/
def stitchStep (stitch : ErrVal → AfterTaskStore → Except ErrVal ErrVal)
    (error : ErrVal) (stackInfo : AfterTaskStore) : List LogEvent × ErrVal :=
  if isErrorVal error then
    match stitch error stackInfo with
    | .ok stitched => ([], stitched)
    | .error stitchError => ([LogEvent.stitchFailLog stitchError], error)
  else
    ([], error)

/-- Embeds `AfterContext.reportTaskError` (after-context.ts lines 190-232),
parametric over the stitcher's behavior (`stitchAfterCallstack`, an external
collaborator: `.ok` is a normal return, `.error` a throw) and over the
configured `onTaskError` hook's behavior (likewise). Returns the log/call
events in order. The `try`/`catch` around the stitch and around the hook are
the two `match`es on a thrown result: both errors are caught here and the
function itself always returns. -/
def reportTaskError
    (onTaskError : Option (ErrVal → Except ErrVal Unit))
    (stitch : ErrVal → AfterTaskStore → Except ErrVal ErrVal)
    (taskKind : TaskKind) (error : ErrVal) (stackInfo : AfterTaskStore) :
    List LogEvent :=
  let r := stitchStep stitch error stackInfo
  let logs := r.1 ++ [LogEvent.taskErrorLog taskKind r.2]
  match onTaskError with
  | none => logs
  | some hook =>
    match hook r.2 with
    | .ok _ => logs ++ [LogEvent.hookCall r.2]
    | .error handlerError =>
      logs ++ [LogEvent.hookCall r.2, LogEvent.hookFailLog handlerError]

/-- Events emitted by the scheduling phase (callback enqueueing and
`waitUntil` invocations); the close notification, phase flips, queue start
and callback execution are not among them. -/
def Event.isSchedulingEvent : Event → Bool
  | .scheduled _ => true
  | .waitUntilTask _ => true
  | .waitUntilCloseWait => true
  | _ => false

/-- Iterated nesting of deferred-task records: starting from an existing
record, each step is one nested `after` call building its record via
`mkAfterTaskStore` (the per-step pair is the ambient work-unit phase and the
step's caller info). -/
def nestChain (store : AfterTaskStore) :
    List (Option Phase × TaskCallerInfo) → AfterTaskStore
  | [] => store
  | step :: rest => nestChain (mkAfterTaskStore (some store) step.1 step.2) rest

/-- Is this log entry the kind-tagged `console.error` of a task error? -/
def LogEvent.isTaskErrorLog : LogEvent → Bool
  | .taskErrorLog _ _ => true
  | _ => false

/-- Pointwise description of the drain's phase-flip loop: a store's phase
becomes `after` exactly when its id was observed, and is untouched
otherwise. -/
theorem flipPhases_eq (ids : List Nat) (w : World) (j : Nat) :
    flipPhases w ids j = if j ∈ ids then Phase.after else w j := by
  induction ids generalizing w with
  | nil => simp [flipPhases]
  | cons hd tl ih =>
    simp only [flipPhases, List.foldl_cons]
    have h := ih (fun k => if k = hd then Phase.after else w k)
    simp only [flipPhases] at h
    rw [h]
    by_cases h1 : j ∈ tl
    · simp [h1]
    · by_cases h2 : j = hd <;> simp [h1, h2]

/-- A single `schedule` call emits only scheduling events. -/
theorem after_events_scheduling (s : AfterContextState) (w : World)
    (amb : Ambient) (task : AfterTask) (ci : TaskCallerInfo) :
    ∀ e ∈ (AfterContext.after s w amb task ci).2.1,
      e.isSchedulingEvent = true := by
  cases task with
  | thenable t =>
    by_cases hw : s.waitUntil <;>
      simp [AfterContext.after, hw, Event.isSchedulingEvent]
  | fn cb =>
    by_cases hw : s.waitUntil <;>
      cases hws : amb.workUnitStore <;>
      by_cases ha : s.runCallbacksOnClosePromise <;>
      simp [AfterContext.after, addCallback, hw, hws, ha,
        Event.isSchedulingEvent]
  | invalid d => simp [AfterContext.after]

/-- A whole sequence of `schedule` calls emits only scheduling events. -/
theorem runSchedules_events_scheduling (w : World) (ops : List ScheduleOp) :
    ∀ s : AfterContextState, ∀ e ∈ (runSchedules s w ops).2,
      e.isSchedulingEvent = true := by
  induction ops with
  | nil => intro s e he; simp [runSchedules] at he
  | cons op rest ih =>
    intro s e he
    simp only [runSchedules, List.mem_append] at he
    rcases he with he | he
    · exact after_events_scheduling _ _ _ _ _ e he
    · exact ih _ e he

/-- C2: a `schedule` call with a task that is neither a thenable nor a
function throws the usage error synchronously, emits no event, and returns
the coordinator state exactly as it was: the callback queue, the observed
work-unit-store set, and the close-wait arming state are unchanged. -/
theorem afterContext_usage_error_state_unchanged
    (s : AfterContextState) (w : World) (amb : Ambient) (desc : String)
    (ci : TaskCallerInfo) :
    AfterContext.after s w amb (AfterTask.invalid desc) ci
      = (s, [], some (JsError.error usageErrorMsg)) := rfl

/-- C3: when `waitUntil` is not configured, `schedule` with any valid task
(thenable or function) throws the configuration error synchronously: no
event is emitted (so the eventual task is never touched and `waitUntil` is
never invoked) and the coordinator state — callback queue and observed
work-unit-store set included — is returned unchanged. -/
theorem afterContext_config_error_waitUntil_unavailable
    (s : AfterContextState) (w : World) (amb : Ambient) (task : AfterTask)
    (ci : TaskCallerInfo)
    (hw : s.waitUntil = false)
    (hv : (∃ t, task = AfterTask.thenable t) ∨ (∃ cb, task = AfterTask.fn cb)) :
    AfterContext.after s w amb task ci
      = (s, [], some errorWaitUntilNotAvailable) := by
  rcases hv with ⟨t, rfl⟩ | ⟨cb, rfl⟩ <;>
    simp [AfterContext.after, addCallback, hw]

theorem afterContext_config_error_waitUntil_unavailable_witness :
    AfterContext.after (mkAfterContext false true) (fun _ => Phase.action)
        ⟨none, none⟩ (AfterTask.fn 0) ⟨⟨"site"⟩, none⟩
      = (mkAfterContext false true, [], some errorWaitUntilNotAvailable) :=
  afterContext_config_error_waitUntil_unavailable _ _ _ _ _ rfl
    (Or.inr ⟨0, rfl⟩)

/-- The three root fields survive any number of nesting steps unchanged. -/
theorem nestChain_root_fields (chain : List (Option Phase × TaskCallerInfo)) :
    ∀ store : AfterTaskStore,
      (nestChain store chain).rootTaskSpawnPhase = store.rootTaskSpawnPhase
      ∧ (nestChain store chain).rootTaskCallerStack = store.rootTaskCallerStack
      ∧ (nestChain store chain).rootTaskReactOwnerStack
          = store.rootTaskReactOwnerStack := by
  induction chain with
  | nil => intro store; exact ⟨rfl, rfl, rfl⟩
  | cons step rest ih =>
    intro store
    have h := ih (mkAfterTaskStore (some store) step.1 step.2)
    simp only [nestChain]
    exact ⟨h.1, h.2.1, h.2.2⟩

/-- C5: a nested `schedule` builds a record that prepends the new caller
stack to the nested sequence (most recently nested first) and copies the
three root fields from the enclosing record; those root fields are identical
across all nesting depths; and a root call produces a record with an absent
nested sequence, recording spawn phase, caller stack and owner stack. -/
theorem afterContext_caller_chain_record_shape
    (outer : AfterTaskStore) (p : Option Phase) (ci : TaskCallerInfo) :
    (mkAfterTaskStore (some outer) p ci).nestedTaskCallerStacks
        = some (ci.callerStack :: outer.nestedTaskCallerStacks.getD [])
    ∧ (mkAfterTaskStore (some outer) p ci).rootTaskSpawnPhase
        = outer.rootTaskSpawnPhase
    ∧ (mkAfterTaskStore (some outer) p ci).rootTaskCallerStack
        = outer.rootTaskCallerStack
    ∧ (mkAfterTaskStore (some outer) p ci).rootTaskReactOwnerStack
        = outer.rootTaskReactOwnerStack
    ∧ mkAfterTaskStore none p ci
        = { rootTaskSpawnPhase := p
            rootTaskReactOwnerStack := ci.reactOwnerStack
            rootTaskCallerStack := ci.callerStack
            nestedTaskCallerStacks := none }
    ∧ (∀ chain : List (Option Phase × TaskCallerInfo),
        (nestChain outer chain).rootTaskSpawnPhase = outer.rootTaskSpawnPhase
        ∧ (nestChain outer chain).rootTaskCallerStack
            = outer.rootTaskCallerStack
        ∧ (nestChain outer chain).rootTaskReactOwnerStack
            = outer.rootTaskReactOwnerStack) :=
  ⟨rfl, rfl, rfl, rfl, rfl, fun chain => nestChain_root_fields chain outer⟩

/-- One `addCallback` step, characterized on the close-wait bookkeeping:
the close-wait `waitUntil` call happens exactly when the capability is
available and the instance was not yet armed, and arming is monotone. -/
theorem addCallback_closeWait_step (s : AfterContextState) (w : World)
    (amb : Ambient) (cb : Nat) (ci : TaskCallerInfo) :
    (addCallback s w amb cb ci).1.closeWaitWaitUntilCalls
        = (if s.waitUntil && !s.runCallbacksOnClosePromise
            then s.closeWaitWaitUntilCalls + 1
            else s.closeWaitWaitUntilCalls)
    ∧ (addCallback s w amb cb ci).1.runCallbacksOnClosePromise
        = (s.runCallbacksOnClosePromise || s.waitUntil) := by
  by_cases hw : s.waitUntil <;>
    cases hws : amb.workUnitStore <;>
    by_cases ha : s.runCallbacksOnClosePromise <;>
    simp [addCallback, hw, hws, ha]

/-- Any `schedule` call preserves the invariant that the close-wait
`waitUntil` call count is 1 when armed and 0 otherwise. -/
theorem after_closeWait_inv (s : AfterContextState) (w : World)
    (amb : Ambient) (task : AfterTask) (ci : TaskCallerInfo)
    (h : s.closeWaitWaitUntilCalls
          = if s.runCallbacksOnClosePromise then 1 else 0) :
    (AfterContext.after s w amb task ci).1.closeWaitWaitUntilCalls
      = if (AfterContext.after s w amb task ci).1.runCallbacksOnClosePromise
        then 1 else 0 := by
  cases task with
  | thenable t => by_cases hw : s.waitUntil <;> simp [AfterContext.after, hw, h]
  | fn cb =>
    have hstep := addCallback_closeWait_step s w amb cb ci
    simp only [AfterContext.after]
    simp only [hstep.1, hstep.2]
    by_cases hw : s.waitUntil <;>
      by_cases ha : s.runCallbacksOnClosePromise <;>
      simp [hw, ha, h]
  | invalid d => simpa [AfterContext.after] using h

/-- The close-wait invariant holds after any sequence of `schedule` calls. -/
theorem runSchedules_closeWait_inv (w : World) (ops : List ScheduleOp) :
    ∀ s : AfterContextState,
      s.closeWaitWaitUntilCalls
          = (if s.runCallbacksOnClosePromise then 1 else 0) →
      (runSchedules s w ops).1.closeWaitWaitUntilCalls
        = if (runSchedules s w ops).1.runCallbacksOnClosePromise
          then 1 else 0 := by
  induction ops with
  | nil => intro s h; simpa [runSchedules] using h
  | cons op rest ih =>
    intro s h
    simp only [runSchedules]
    exact ih _ (after_closeWait_inv s w op.amb op.task op.callerInfo h)

/-- C6: per coordinator instance, the close-wait task is handed to
`waitUntil` exactly once. After any sequence of `schedule` calls on a fresh
instance, the number of close-wait `waitUntil` invocations is 1 if the
close-wait promise exists and 0 otherwise (in particular it never exceeds
1), and a single `addCallback` step invokes it only on the arming
transition: with `waitUntil` available and the instance not yet armed. -/
theorem afterContext_close_wait_armed_exactly_once
    (waitUntil isEnabled : Bool) (w : World) (ops : List ScheduleOp) :
    ((runSchedules (mkAfterContext waitUntil isEnabled) w ops).1.closeWaitWaitUntilCalls
        = if (runSchedules (mkAfterContext waitUntil isEnabled) w ops).1.runCallbacksOnClosePromise
          then 1 else 0)
    ∧ (runSchedules (mkAfterContext waitUntil isEnabled) w ops).1.closeWaitWaitUntilCalls ≤ 1
    ∧ (∀ (s : AfterContextState) (amb : Ambient) (cb : Nat)
        (ci : TaskCallerInfo),
        (addCallback s w amb cb ci).1.closeWaitWaitUntilCalls
            = (if s.waitUntil && !s.runCallbacksOnClosePromise
                then s.closeWaitWaitUntilCalls + 1
                else s.closeWaitWaitUntilCalls)
        ∧ (addCallback s w amb cb ci).1.runCallbacksOnClosePromise
            = (s.runCallbacksOnClosePromise || s.waitUntil)) := by
  have hinv := runSchedules_closeWait_inv w ops (mkAfterContext waitUntil isEnabled)
    (by simp [mkAfterContext])
  refine ⟨hinv, ?_, fun s amb cb ci => addCallback_closeWait_step s w amb cb ci⟩
  rw [hinv]
  split <;> omega

/-- For every observed id, the phase-flip trace contains its `phaseSet`
event, at an index below the number of observed stores. -/
theorem map_phaseSet_getElem (ids : List Nat) (id : Nat) (h : id ∈ ids) :
    ∃ j, j < ids.length
      ∧ (ids.map Event.phaseSet)[j]? = some (Event.phaseSet id) := by
  obtain ⟨n, hn, rfl⟩ := List.getElem_of_mem h
  exact ⟨n, hn, by simp [List.getElem?_eq_getElem hn]⟩

/-- C7: if the ambient work store is absent when the drain runs on a
non-empty queue, `runCallbacks` throws an `InvariantError` (which propagates
out: it is the function's thrown result, not an entry in any log); up to
that point it has emitted only phase-flip events (the queue was never
started, no callback ran, and `reportTaskError` — whose observable actions
live in `LogEvent`, not `Event` — was never invoked); and the thrown error
is distinct from every plain `Error`, hence from the usage error and the
configuration error. -/
theorem afterContext_drain_missing_workstore_invariant_error
    (s : AfterContextState) (w : World)
    (hq : s.callbackQueue ≠ []) :
    runCallbacks s w false
      = (flipPhases w s.workUnitStores,
          s.workUnitStores.map Event.phaseSet,
          some (JsError.invariantError missingWorkStoreMsg))
    ∧ (∀ e ∈ (runCallbacks s w false).2.1, ∃ i, e = Event.phaseSet i)
    ∧ (∀ msg, JsError.invariantError missingWorkStoreMsg
        ≠ JsError.error msg) := by
  have hq0 : ¬ (s.callbackQueue.length = 0) := by
    simpa [List.length_eq_zero] using hq
  refine ⟨by simp [runCallbacks, hq0], ?_, by intro msg; simp⟩
  intro e he
  simp only [runCallbacks, hq0, if_false, ite_false, if_neg] at he
  simp at he
  obtain ⟨i, _, rfl⟩ := he
  exact ⟨i, rfl⟩

theorem afterContext_drain_missing_workstore_invariant_error_witness :
    ({ mkAfterContext true true with
        callbackQueue := [⟨0, mkAfterTaskStore none none ⟨⟨"site"⟩, none⟩⟩]
        workUnitStores := [5] } : AfterContextState).callbackQueue ≠ []
    ∧ (runCallbacks
        { mkAfterContext true true with
            callbackQueue := [⟨0, mkAfterTaskStore none none ⟨⟨"site"⟩, none⟩⟩]
            workUnitStores := [5] }
        (fun _ => Phase.action) false).2.2
      = some (JsError.invariantError missingWorkStoreMsg) :=
  ⟨by simp,
    congrArg (fun r => r.2.2)
      (afterContext_drain_missing_workstore_invariant_error _
        (fun _ => Phase.action) (by simp)).1⟩

/-- C10: when the drain runs on a non-empty queue and the ambient work store
is missing, the `InvariantError` is thrown only after the phase flip already
happened: every observed store's phase has been mutated to `after` (the
flip events are exactly the emitted trace), so whenever some observed store
was not already in the `after` phase, the heap on this error path is not the
heap the drain started from. -/
theorem afterContext_drain_phase_flip_precedes_invariant_throw
    (s : AfterContextState) (w : World)
    (hq : s.callbackQueue ≠ []) :
    ((runCallbacks s w false).2.2
        = some (JsError.invariantError missingWorkStoreMsg))
    ∧ (∀ id ∈ s.workUnitStores,
        (runCallbacks s w false).1 id = Phase.after)
    ∧ ((runCallbacks s w false).2.1 = s.workUnitStores.map Event.phaseSet)
    ∧ (∀ id ∈ s.workUnitStores, w id ≠ Phase.after →
        (runCallbacks s w false).1 ≠ w) := by
  have hq0 : ¬ (s.callbackQueue.length = 0) := by
    simpa [List.length_eq_zero] using hq
  refine ⟨by simp [runCallbacks, hq0], ?_, by simp [runCallbacks, hq0], ?_⟩
  · intro id hid
    simp [runCallbacks, hq0, flipPhases_eq, hid]
  · intro id hid hphase heq
    have h1 : (runCallbacks s w false).1 id = Phase.after := by
      simp [runCallbacks, hq0, flipPhases_eq, hid]
    rw [heq] at h1
    exact hphase h1

theorem afterContext_drain_phase_flip_precedes_invariant_throw_witness :
    ({ mkAfterContext true true with
        callbackQueue := [⟨1, mkAfterTaskStore none none ⟨⟨"w"⟩, none⟩⟩]
        workUnitStores := [7] } : AfterContextState).callbackQueue ≠ []
    ∧ (runCallbacks
        { mkAfterContext true true with
            callbackQueue := [⟨1, mkAfterTaskStore none none ⟨⟨"w"⟩, none⟩⟩]
            workUnitStores := [7] }
        (fun _ => Phase.render) false).1 7 = Phase.after :=
  ⟨by simp,
    (afterContext_drain_phase_flip_precedes_invariant_throw _
        (fun _ => Phase.render) (by simp)).2.1 7 (by simp)⟩

/-- C4: when the drain runs on a non-empty queue with the work store
present, no error is thrown, every observed store's phase has been set to
`after`, and in the emitted trace every observed store's `phaseSet` event
precedes the `queueStarted` event and every callback execution: the phase
flip strictly precedes any deferred procedure starting to run. -/
theorem afterContext_drain_flips_phases_before_start
    (s : AfterContextState) (w : World)
    (hq : s.callbackQueue ≠ []) :
    ((runCallbacks s w true).2.2 = none)
    ∧ (∀ id ∈ s.workUnitStores,
        (runCallbacks s w true).1 id = Phase.after)
    ∧ (∀ k : Nat,
        ((runCallbacks s w true).2.1[k]? = some Event.queueStarted
          ∨ ∃ c, (runCallbacks s w true).2.1[k]?
              = some (Event.callbackRun c)) →
        ∀ id ∈ s.workUnitStores,
          ∃ j, j < k
            ∧ (runCallbacks s w true).2.1[j]?
                = some (Event.phaseSet id)) := by
  have hq0 : ¬ (s.callbackQueue.length = 0) := by
    simpa [List.length_eq_zero] using hq
  have hevs : (runCallbacks s w true).2.1
      = s.workUnitStores.map Event.phaseSet
        ++ Event.queueStarted
          :: s.callbackQueue.map (fun q => Event.callbackRun q.cb) := by
    simp [runCallbacks, hq0]
  refine ⟨by simp [runCallbacks, hq0], ?_, ?_⟩
  · intro id hid
    simp [runCallbacks, hq0, flipPhases_eq, hid]
  · intro k hk id hid
    have hk_ge : s.workUnitStores.length ≤ k := by
      by_contra hlt
      push_neg at hlt
      have hkev : (runCallbacks s w true).2.1[k]?
          = some (Event.phaseSet s.workUnitStores[k]) := by
        rw [hevs, List.getElem?_append]
        simp only [List.length_map]
        rw [if_pos hlt]
        simp [List.getElem?_eq_getElem hlt]
      rcases hk with hk | ⟨c, hk⟩ <;> rw [hk] at hkev <;> simp at hkev
    obtain ⟨j, hj, hjget⟩ := map_phaseSet_getElem s.workUnitStores id hid
    refine ⟨j, lt_of_lt_of_le hj hk_ge, ?_⟩
    rw [hevs, List.getElem?_append]
    simp only [List.length_map]
    rw [if_pos hj]
    exact hjget

theorem afterContext_drain_flips_phases_before_start_witness :
    ({ mkAfterContext true true with
        callbackQueue := [⟨2, mkAfterTaskStore none none ⟨⟨"x"⟩, none⟩⟩]
        workUnitStores := [3] } : AfterContextState).callbackQueue ≠ []
    ∧ (runCallbacks
        { mkAfterContext true true with
            callbackQueue := [⟨2, mkAfterTaskStore none none ⟨⟨"x"⟩, none⟩⟩]
            workUnitStores := [3] }
        (fun _ => Phase.action) true).1 3 = Phase.after :=
  ⟨by simp,
    (afterContext_drain_flips_phases_before_start _
        (fun _ => Phase.action) (by simp)).2.1 3 (by simp)⟩

/-- In a trace made of scheduling events followed by the close notification
and the rest, any non-scheduling, non-close event is strictly preceded by
the close notification. -/
theorem no_event_before_close_append (l1 l2 : List Event)
    (h : ∀ e ∈ l1, e.isSchedulingEvent = true) (i : Nat) (ev : Event)
    (hev : ev.isSchedulingEvent = false) (hne : ev ≠ Event.closeFired)
    (hi : (l1 ++ Event.closeFired :: l2)[i]? = some ev) :
    ∃ j, j < i
      ∧ (l1 ++ Event.closeFired :: l2)[j]? = some Event.closeFired := by
  rcases lt_trichotomy i l1.length with hlt | heq | hgt
  · exfalso
    rw [List.getElem?_append, if_pos hlt] at hi
    have hmem : ev ∈ l1 := List.getElem?_mem hi
    rw [h ev hmem] at hev
    exact Bool.noConfusion hev
  · exfalso
    subst heq
    rw [List.getElem?_append, if_neg (by omega), Nat.sub_self] at hi
    simp at hi
    exact hne hi.symm
  · refine ⟨l1.length, hgt, ?_⟩
    rw [List.getElem?_append, if_neg (by omega), Nat.sub_self]
    simp

/-- C1: the callback queue is constructed paused, and over any whole
lifecycle — any number of `schedule` calls, then the close notification,
then (if armed) the drain — no wrapped callback begins executing before the
close notification has fired: any `callbackRun` event in the trace is
strictly preceded by the `closeFired` event. -/
theorem afterContext_callbacks_run_only_after_close
    (waitUntil isEnabled : Bool) (ops : List ScheduleOp) (w : World)
    (workStorePresent : Bool) (i c : Nat)
    (hi : (lifecycle waitUntil isEnabled ops w workStorePresent).2[i]?
        = some (Event.callbackRun c)) :
    (mkAfterContext waitUntil isEnabled).queuePaused = true
    ∧ ∃ j, j < i
        ∧ (lifecycle waitUntil isEnabled ops w workStorePresent).2[j]?
            = some Event.closeFired := by
  refine ⟨rfl, ?_⟩
  have hsched :=
    runSchedules_events_scheduling w ops (mkAfterContext waitUntil isEnabled)
  by_cases harm : (runSchedules (mkAfterContext waitUntil isEnabled) w
      ops).1.runCallbacksOnClosePromise
  · have hl : (lifecycle waitUntil isEnabled ops w workStorePresent).2
        = (runSchedules (mkAfterContext waitUntil isEnabled) w ops).2
          ++ Event.closeFired
            :: (runCallbacks
                (runSchedules (mkAfterContext waitUntil isEnabled) w ops).1
                w workStorePresent).2.1 := by
      simp [lifecycle, runCallbacksOnClose, harm]
    rw [hl] at hi ⊢
    exact no_event_before_close_append _ _ hsched i (Event.callbackRun c)
      rfl (by simp) hi
  · have hl : (lifecycle waitUntil isEnabled ops w workStorePresent).2
        = (runSchedules (mkAfterContext waitUntil isEnabled) w ops).2
          ++ Event.closeFired :: [] := by
      simp [lifecycle, harm]
    rw [hl] at hi ⊢
    exact no_event_before_close_append _ _ hsched i (Event.callbackRun c)
      rfl (by simp) hi

theorem afterContext_callbacks_run_only_after_close_witness :
    (mkAfterContext true true).queuePaused = true
    ∧ ∃ j, j < 4
        ∧ (lifecycle true true [⟨⟨none, none⟩, AfterTask.fn 0, ⟨⟨"s"⟩, none⟩⟩]
            (fun _ => Phase.action) true).2[j]? = some Event.closeFired :=
  afterContext_callbacks_run_only_after_close true true
    [⟨⟨none, none⟩, AfterTask.fn 0, ⟨⟨"s"⟩, none⟩⟩]
    (fun _ => Phase.action) true 4 0 rfl

/-- The guarded stitch attempt never emits a task-error log itself. -/
theorem stitchStep_no_taskErrorLog
    (stitch : ErrVal → AfterTaskStore → Except ErrVal ErrVal)
    (e : ErrVal) (info : AfterTaskStore) :
    ∀ l ∈ (stitchStep stitch e info).1, l.isTaskErrorLog = false := by
  cases he : isErrorVal e
  · simp [stitchStep, he]
  · cases hs : stitch e info <;>
      simp [stitchStep, he, hs, LogEvent.isTaskErrorLog]

/-- C8: when a task failure is reported with a recognized error value and
the stitch step throws, the reporter logs the stitch failure separately and
still performs the original report with the unstitched error: the
kind-appropriate task-error log carries exactly the original error, and a
configured user hook is invoked with that original error. -/
theorem reportTaskError_stitch_failure_still_reports
    (onTaskError : Option (ErrVal → Except ErrVal Unit))
    (stitch : ErrVal → AfterTaskStore → Except ErrVal ErrVal)
    (kind : TaskKind) (e se : ErrVal) (info : AfterTaskStore)
    (he : isErrorVal e = true)
    (hs : stitch e info = Except.error se) :
    LogEvent.stitchFailLog se ∈ reportTaskError onTaskError stitch kind e info
    ∧ LogEvent.taskErrorLog kind e
        ∈ reportTaskError onTaskError stitch kind e info
    ∧ (∀ hook, onTaskError = some hook →
        LogEvent.hookCall e ∈ reportTaskError onTaskError stitch kind e info)
    ∧ (∀ k2 e2,
        LogEvent.taskErrorLog k2 e2
            ∈ reportTaskError onTaskError stitch kind e info →
        k2 = kind ∧ e2 = e) := by
  have hstitch : stitchStep stitch e info = ([LogEvent.stitchFailLog se], e) := by
    simp [stitchStep, he, hs]
  cases onTaskError with
  | none =>
    refine ⟨by simp [reportTaskError, hstitch], by simp [reportTaskError, hstitch],
      by intro hook hcontra; exact Option.noConfusion hcontra, ?_⟩
    intro k2 e2 hmem
    simp [reportTaskError, hstitch] at hmem
    exact hmem
  | some hook =>
    cases hh : hook e with
    | ok u =>
      refine ⟨by simp [reportTaskError, hstitch, hh],
        by simp [reportTaskError, hstitch, hh], ?_, ?_⟩
      · intro hook2 heq
        simp [reportTaskError, hstitch, hh]
      · intro k2 e2 hmem
        simp [reportTaskError, hstitch, hh] at hmem
        exact hmem
    | error herr =>
      refine ⟨by simp [reportTaskError, hstitch, hh],
        by simp [reportTaskError, hstitch, hh], ?_, ?_⟩
      · intro hook2 heq
        simp [reportTaskError, hstitch, hh]
      · intro k2 e2 hmem
        simp [reportTaskError, hstitch, hh] at hmem
        exact hmem

theorem reportTaskError_stitch_failure_still_reports_witness :
    LogEvent.stitchFailLog (ErrVal.other "sf")
        ∈ reportTaskError (some (fun _ => Except.ok ()))
            (fun _ _ => Except.error (ErrVal.other "sf")) TaskKind.promise
            (ErrVal.jsErr (JsError.error "boom"))
            (mkAfterTaskStore none none ⟨⟨"s"⟩, none⟩)
    ∧ LogEvent.taskErrorLog TaskKind.promise (ErrVal.jsErr (JsError.error "boom"))
        ∈ reportTaskError (some (fun _ => Except.ok ()))
            (fun _ _ => Except.error (ErrVal.other "sf")) TaskKind.promise
            (ErrVal.jsErr (JsError.error "boom"))
            (mkAfterTaskStore none none ⟨⟨"s"⟩, none⟩) :=
  ⟨(reportTaskError_stitch_failure_still_reports (some (fun _ => Except.ok ()))
      (fun _ _ => Except.error (ErrVal.other "sf")) TaskKind.promise
      (ErrVal.jsErr (JsError.error "boom")) (ErrVal.other "sf")
      (mkAfterTaskStore none none ⟨⟨"s"⟩, none⟩) rfl rfl).1,
    (reportTaskError_stitch_failure_still_reports (some (fun _ => Except.ok ()))
      (fun _ _ => Except.error (ErrVal.other "sf")) TaskKind.promise
      (ErrVal.jsErr (JsError.error "boom")) (ErrVal.other "sf")
      (mkAfterTaskStore none none ⟨⟨"s"⟩, none⟩) rfl rfl).2.1⟩

/-- C9: a throwing `onTaskError` hook is fully contained: for any hook that
throws, `reportTaskError` still returns (the throw is caught by the
protective boundary), its output differs from the same report with a
returning hook only by the single appended hook-failure log, and handling
the hook error never re-enters the stitching or logging steps — exactly one
task-error log is emitted, with nothing after the hook-failure log. -/
theorem reportTaskError_hook_error_contained
    (stitch : ErrVal → AfterTaskStore → Except ErrVal ErrVal)
    (kind : TaskKind) (e herr : ErrVal) (info : AfterTaskStore)
    (hook : ErrVal → Except ErrVal Unit)
    (hh : ∀ x, hook x = Except.error herr) :
    reportTaskError (some hook) stitch kind e info
      = reportTaskError (some (fun _ => Except.ok ())) stitch kind e info
        ++ [LogEvent.hookFailLog herr]
    ∧ (reportTaskError (some hook) stitch kind e info).countP
        (fun l => l.isTaskErrorLog) = 1 := by
  constructor
  · simp [reportTaskError, hh]
  · have hstep := stitchStep_no_taskErrorLog stitch e info
    simp [reportTaskError, hh, List.countP_append, List.countP_cons,
      LogEvent.isTaskErrorLog, List.countP_eq_zero]
    intro a ha
    simpa [LogEvent.isTaskErrorLog] using hstep a ha

theorem reportTaskError_hook_error_contained_witness :
    (reportTaskError (some (fun _ => Except.error (ErrVal.other "hookboom")))
        (fun err _ => Except.ok err) TaskKind.func
        (ErrVal.jsErr (JsError.error "boom"))
        (mkAfterTaskStore none none ⟨⟨"s"⟩, none⟩)).countP
      (fun l => l.isTaskErrorLog) = 1 :=
  (reportTaskError_hook_error_contained (fun err _ => Except.ok err)
    TaskKind.func (ErrVal.jsErr (JsError.error "boom"))
    (ErrVal.other "hookboom") (mkAfterTaskStore none none ⟨⟨"s"⟩, none⟩)
    (fun _ => Except.error (ErrVal.other "hookboom"))
    (fun _ => rfl)).2
